import Mathlib

/-
Shallow embedding of the quincy middleware-chaining library (src/quincy.go).

The Go types are embedded as follows.

* `context.Context` becomes the structure `Ctx ε γ`: the only observation the
  chain itself makes is `Err()`, embedded as the field `err : Option ε`
  (`none` = no failure signaled); all other request-scoped data is collapsed
  into the opaque payload field `val : γ`.
* `http.ResponseWriter` is a mutable sink, embedded as explicitly threaded
  state of an opaque type `σ`; `*http.Request` is an opaque value of type `ρ`.
* `Middleware` (func(Context, ResponseWriter, *Request) Context) becomes
  `Ctx ε γ → σ → ρ → Ctx ε γ × σ`: it returns the new Context and, since it
  may write to the sink, the new sink state.
* `HandlerFunc` (returns nothing; its effects go through the sink) becomes
  `Ctx ε γ → σ → ρ → σ`.
* `appengine.NewContext` is an external collaborator (the spec's "Context
  factory"); it is passed as an explicit parameter `nc : ρ → Ctx ε γ` to the
  operations that call it (`Then`, `Handle`'s handler).
* Go slices become `List`, the variadic `New`/`Add` take that list; the
  in-place mutation of `Q.fns` by `Add` becomes returning the updated value.
-/

namespace Quincy

/-- Embeds `context.Context`: `err` is the `Err()` observation (`none` when no
failure has been signaled), `val` is the rest of the request-scoped data,
opaque to the chain. -/
structure Ctx (ε γ : Type) where
  err : Option ε
  val : γ
  deriving DecidableEq, Repr

/-- Embeds `type Middleware func(context.Context, http.ResponseWriter,
*http.Request) context.Context`; the sink state is threaded explicitly. -/
abbrev Middleware (ε γ σ ρ : Type) := Ctx ε γ → σ → ρ → Ctx ε γ × σ

/-- Embeds `type HandlerFunc func(context.Context, http.ResponseWriter,
*http.Request)`; its only effect is on the sink, so it returns the sink. -/
abbrev HandlerFunc (ε γ σ ρ : Type) := Ctx ε γ → σ → ρ → σ

/-- Embeds the `Handler` interface: one `ServeHTTP(Context, ResponseWriter,
*Request)` capability. -/
structure Handler (ε γ σ ρ : Type) where
  ServeHTTP : Ctx ε γ → σ → ρ → σ

/-- Embeds the unexported `handler` struct wrapping a composed middleware and
a terminal `Handler` (field `hd` embeds the Go field `handler`). -/
structure handler (ε γ σ ρ : Type) where
  mw : Middleware ε γ σ ρ
  hd : Handler ε γ σ ρ

variable {ε γ σ ρ : Type}

/-- Embeds `func link(current, next Middleware) Middleware` (quincy.go:119-130):
run `current`; if the returned Context carries an error, return it; otherwise
run `next` when it is non-nil (`next = none` embeds a nil function value). -/
def link (current : Middleware ε γ σ ρ) (next : Option (Middleware ε γ σ ρ)) :
    Middleware ε γ σ ρ :=
  fun c w r =>
    let p := current c w r
    match p.1.err with
    | some _ => p
    | none =>
      match next with
      | some n => n p.1 p.2 r
      | none => p

/-- The loop in `chain` (quincy.go:103-105): `for i := count-1; i >= 0; i--`
with `next = link(fns[i], next)` starting from nil is exactly a right fold
with initial value `none`. -/
def chainAux (fns : List (Middleware ε γ σ ρ)) : Option (Middleware ε γ σ ρ) :=
  fns.foldr (fun f next => some (link f next)) none

/-- Embeds `func chain(fns []Middleware) Middleware` (quincy.go:100-116): the
right-to-left fold of `link`, and the identity middleware when the slice is
empty (the fold yields `none` exactly for the empty list). -/
def chain (fns : List (Middleware ε γ σ ρ)) : Middleware ε γ σ ρ :=
  match chainAux fns with
  | some m => m
  | none => fun c w _ => (c, w)

/-- Embeds `(h handler) ServeHTTP(w, r)` (quincy.go:28-34): derive a Context
via the factory, run the composed middleware, and delegate to the terminal
handler only when the resulting Context carries no error. -/
def handler.ServeHTTP (h : handler ε γ σ ρ) (nc : ρ → Ctx ε γ) (w : σ) (r : ρ) : σ :=
  let c := nc r
  let p := h.mw c w r
  match p.1.err with
  | some _ => p.2
  | none => h.hd.ServeHTTP p.1 p.2 r

/-- Embeds `type Q struct { fns []Middleware }` (quincy.go:37-39). -/
structure Q (ε γ σ ρ : Type) where
  fns : List (Middleware ε γ σ ρ)

/-- Embeds `func New(fns ...Middleware) *Q` (quincy.go:45-49). -/
def New (fns : List (Middleware ε γ σ ρ)) : Q ε γ σ ρ := ⟨fns⟩

/-- Embeds `func (q *Q) Add(fns ...Middleware)` (quincy.go:55-57); the Go
append-in-place becomes returning the updated value. -/
def Q.Add (q : Q ε γ σ ρ) (fns : List (Middleware ε γ σ ρ)) : Q ε γ σ ρ :=
  ⟨q.fns ++ fns⟩

/-- Embeds `func (q *Q) Run(c, w, r)` (quincy.go:69-71). -/
def Q.Run (q : Q ε γ σ ρ) (c : Ctx ε γ) (w : σ) (r : ρ) : Ctx ε γ × σ :=
  chain q.fns c w r

/-- Embeds `func (q *Q) Then(fn HandlerFunc)` (quincy.go:76-87): the composed
middleware `chn` is built once, before the returned closure; the closure
derives a fresh Context via the factory `nc` (`appengine.NewContext` in the
source), runs `chn`, and calls `fn` only when no error is present. -/
def Q.Then (q : Q ε γ σ ρ) (fn : HandlerFunc ε γ σ ρ) (nc : ρ → Ctx ε γ) :
    σ → ρ → σ :=
  let chn := chain q.fns
  fun w r =>
    let c := nc r
    let p := chn c w r
    match p.1.err with
    | some _ => p.2
    | none => fn p.1 p.2 r

/-- Embeds `func (q *Q) Handle(h Handler) http.Handler` (quincy.go:93-96). -/
def Q.Handle (q : Q ε γ σ ρ) (h : Handler ε γ σ ρ) : handler ε γ σ ρ :=
  ⟨chain q.fns, h⟩

/-- The shared "run the composed chain, then the terminal on success"
semantics, expressed over the Context actually fed in; `Q.Then` applied to a
factory-derived Context is definitionally this (see `then_eq_runThen`). -/
def runThen (fns : List (Middleware ε γ σ ρ)) (fn : HandlerFunc ε γ σ ρ)
    (c : Ctx ε γ) (w : σ) (r : ρ) : σ :=
  let p := chain fns c w r
  match p.1.err with
  | some _ => p.2
  | none => fn p.1 p.2 r

/-- A middleware as Go actually types it: `context.Context` is an interface,
so the returned Context may be nil; the possibly-nil return is embedded as
`Option (Ctx ε γ)`. -/
abbrev MiddlewareN (ε γ σ ρ : Type) := Ctx ε γ → σ → ρ → Option (Ctx ε γ) × σ

/-- `link` over possibly-nil-returning middleware: calling `Err()` on a nil
Context (quincy.go:122) is a runtime fault, embedded as `Except.error ()`. -/
def linkN (current : MiddlewareN ε γ σ ρ)
    (next : Option (Ctx ε γ → σ → ρ → Except Unit (Ctx ε γ × σ))) :
    Ctx ε γ → σ → ρ → Except Unit (Ctx ε γ × σ) :=
  fun c w r =>
    let p := current c w r
    match p.1 with
    | none => Except.error ()
    | some c1 =>
      match c1.err with
      | some _ => Except.ok (c1, p.2)
      | none =>
        match next with
        | some n => n c1 p.2 r
        | none => Except.ok (c1, p.2)

/-- The `chain` fold (quincy.go:103-105) over possibly-nil-returning
middleware. -/
def chainNAux (fns : List (MiddlewareN ε γ σ ρ)) :
    Option (Ctx ε γ → σ → ρ → Except Unit (Ctx ε γ × σ)) :=
  fns.foldr (fun f next => some (linkN f next)) none

/-- `chain` (quincy.go:100-116) over possibly-nil-returning middleware, with
the nil-dereference fault made explicit as `Except.error`. -/
def chainN (fns : List (MiddlewareN ε γ σ ρ)) :
    Ctx ε γ → σ → ρ → Except Unit (Ctx ε γ × σ) :=
  match chainNAux fns with
  | some m => m
  | none => fun c w _ => Except.ok (c, w)

/-- A total middleware viewed as a possibly-nil-returning one that in fact
never returns nil. -/
def toN (f : Middleware ε γ σ ρ) : MiddlewareN ε γ σ ρ :=
  fun c w r => (some (f c w r).1, (f c w r).2)

/-- Concrete Context with no failure signaled (payload 0), for witnesses. -/
def ctxOk : Ctx Unit Nat := ⟨none, 0⟩

/-- Concrete Context already carrying a failure, for witnesses. -/
def ctxFailed : Ctx Unit Nat := ⟨some (), 0⟩

/-- Concrete Context factory: always derives a fresh, unfailed Context. -/
def ncFresh : Nat → Ctx Unit Nat := fun _ => ⟨none, 0⟩

/-- Concrete middleware: stores 1 in the Context payload, signals no failure. -/
def mwSetOne : Middleware Unit Nat Nat Nat := fun c w _ => (⟨c.err, 1⟩, w)

/-- Concrete middleware: writes the Context payload to the sink. -/
def mwCopyVal : Middleware Unit Nat Nat Nat := fun c _ _ => (c, c.val)

/-- Concrete middleware: increments the sink, leaves the Context unchanged. -/
def mwIncrSink : Middleware Unit Nat Nat Nat := fun c w _ => (c, w + 1)

/-- Concrete middleware: increments the sink and signals a failure. -/
def mwFailMark : Middleware Unit Nat Nat Nat := fun c w _ => (⟨some (), c.val⟩, w + 1)

/-- Concrete terminal function: returns the sink unchanged. -/
def tcSink : HandlerFunc Unit Nat Nat Nat := fun _ w _ => w

/-- Concrete terminal function: writes the Context payload to the sink. -/
def tReadVal : HandlerFunc Unit Nat Nat Nat := fun c _ _ => c.val

/-- Concrete possibly-nil middleware that never returns nil (and increments
the sink). -/
def mwNSome : MiddlewareN Unit Nat Nat Nat := fun c w _ => (some c, w + 1)

/-- Concrete possibly-nil middleware that returns a nil Context. -/
def mwNNil : MiddlewareN Unit Nat Nat Nat := fun _ w _ => (none, w)

end Quincy

namespace Quincy

variable {ε γ σ ρ : Type}

theorem chain_nil (c : Ctx ε γ) (w : σ) (r : ρ) :
    chain ([] : List (Middleware ε γ σ ρ)) c w r = (c, w) := rfl

theorem chain_cons_fail {f : Middleware ε γ σ ρ} {fs : List (Middleware ε γ σ ρ)}
    {c : Ctx ε γ} {w : σ} {r : ρ} {e : ε} (h : (f c w r).1.err = some e) :
    chain (f :: fs) c w r = f c w r := by
  cases fs with
  | nil => simp [chain, chainAux, link, h]
  | cons g gs => simp [chain, chainAux, link, h]

theorem chain_cons_ok {f : Middleware ε γ σ ρ} {fs : List (Middleware ε γ σ ρ)}
    {c : Ctx ε γ} {w : σ} {r : ρ} (h : (f c w r).1.err = none) :
    chain (f :: fs) c w r = chain fs (f c w r).1 (f c w r).2 r := by
  cases fs with
  | nil => simp [chain, chainAux, link, h, chain_nil]
  | cons g gs => simp [chain, chainAux, link, h]

theorem chain_singleton (f : Middleware ε γ σ ρ) (c : Ctx ε γ) (w : σ) (r : ρ) :
    chain [f] c w r = f c w r := by
  cases h : (f c w r).1.err with
  | none => rw [chain_cons_ok h, chain_nil]
  | some e => exact chain_cons_fail h

/-- Splitting lemma: when the prefix `fs` of a chain completes without a
failure, running the whole chain is running the prefix and then the rest on
the Context and sink the prefix produced. -/
theorem chain_split (fs gs : List (Middleware ε γ σ ρ)) (c : Ctx ε γ) (w : σ) (r : ρ)
    (hpre : (chain fs c w r).1.err = none) :
    chain (fs ++ gs) c w r = chain gs (chain fs c w r).1 (chain fs c w r).2 r := by
  induction fs generalizing c w with
  | nil => simp [chain_nil]
  | cons f fs ih =>
    cases h : (f c w r).1.err with
    | none =>
      rw [chain_cons_ok h] at hpre
      rw [List.cons_append, chain_cons_ok h, chain_cons_ok h]
      exact ih _ _ hpre
    | some e =>
      rw [chain_cons_fail h] at hpre
      rw [h] at hpre
      exact absurd hpre (by simp)

theorem then_eq_runThen (q : Q ε γ σ ρ) (fn : HandlerFunc ε γ σ ρ)
    (nc : ρ → Ctx ε γ) (w : σ) (r : ρ) :
    q.Then fn nc w r = runThen q.fns fn (nc r) w r := rfl

theorem handle_eq_runThen (q : Q ε γ σ ρ) (h : Handler ε γ σ ρ)
    (nc : ρ → Ctx ε γ) (w : σ) (r : ρ) :
    (q.Handle h).ServeHTTP nc w r = runThen q.fns h.ServeHTTP (nc r) w r := rfl

theorem chainN_nil (c : Ctx ε γ) (w : σ) (r : ρ) :
    chainN ([] : List (MiddlewareN ε γ σ ρ)) c w r = Except.ok (c, w) := rfl

theorem chainN_cons_nil {f : MiddlewareN ε γ σ ρ} {fs : List (MiddlewareN ε γ σ ρ)}
    {c : Ctx ε γ} {w : σ} {r : ρ} (h : (f c w r).1 = none) :
    chainN (f :: fs) c w r = Except.error () := by
  cases fs with
  | nil => simp [chainN, chainNAux, linkN, h]
  | cons g gs => simp [chainN, chainNAux, linkN, h]

theorem chainN_cons_fail {f : MiddlewareN ε γ σ ρ} {fs : List (MiddlewareN ε γ σ ρ)}
    {c : Ctx ε γ} {w : σ} {r : ρ} {d : Ctx ε γ} {e : ε}
    (h : (f c w r).1 = some d) (he : d.err = some e) :
    chainN (f :: fs) c w r = Except.ok (d, (f c w r).2) := by
  cases fs with
  | nil => simp [chainN, chainNAux, linkN, h, he]
  | cons g gs => simp [chainN, chainNAux, linkN, h, he]

theorem chainN_cons_ok {f : MiddlewareN ε γ σ ρ} {fs : List (MiddlewareN ε γ σ ρ)}
    {c : Ctx ε γ} {w : σ} {r : ρ} {d : Ctx ε γ}
    (h : (f c w r).1 = some d) (he : d.err = none) :
    chainN (f :: fs) c w r = chainN fs d (f c w r).2 r := by
  cases fs with
  | nil => simp [chainN, chainNAux, linkN, h, he]
  | cons g gs => simp [chainN, chainNAux, linkN, h, he]

theorem chainN_split (fs gs : List (MiddlewareN ε γ σ ρ)) (c : Ctx ε γ) (w : σ)
    (r : ρ) (p : Ctx ε γ × σ) (hpre : chainN fs c w r = Except.ok p)
    (he : p.1.err = none) :
    chainN (fs ++ gs) c w r = chainN gs p.1 p.2 r := by
  induction fs generalizing c w with
  | nil =>
    rw [chainN_nil] at hpre
    cases hpre
    simp
  | cons f fs ih =>
    cases h : (f c w r).1 with
    | none => rw [chainN_cons_nil h] at hpre; cases hpre
    | some c1 =>
      cases hc : c1.err with
      | some e =>
        rw [chainN_cons_fail h hc] at hpre
        cases hpre
        rw [hc] at he
        cases he
      | none =>
        rw [chainN_cons_ok h hc] at hpre
        rw [List.cons_append, chainN_cons_ok h hc]
        exact ih _ _ hpre

/-- The possibly-nil embedding refines the total one: on middleware that never
return nil, `chainN` never faults and computes exactly what `chain` computes. -/
theorem chainN_refines_chain (fns : List (Middleware ε γ σ ρ)) (c : Ctx ε γ)
    (w : σ) (r : ρ) :
    chainN (fns.map toN) c w r = Except.ok (chain fns c w r) := by
  induction fns generalizing c w with
  | nil => rw [List.map_nil, chainN_nil, chain_nil]
  | cons f fs ih =>
    cases h : (f c w r).1.err with
    | some e =>
      rw [List.map_cons, chainN_cons_fail (d := (f c w r).1) rfl h,
        chain_cons_fail h]
      rfl
    | none =>
      rw [List.map_cons, chainN_cons_ok (d := (f c w r).1) rfl h,
        chain_cons_ok h]
      exact ih _ _

/-- C1: for every middleware sequence `fs ++ g :: gs` and every input, if every
step of the prefix `fs` completes without signaling failure (equivalently, the
chained prefix produces an unfailed Context) and the step `g` at position
`fs.length` returns a Context whose error observation is non-nil, then the
composed chain's result is exactly the pair (Context, sink) returned by `g`,
the result does not depend on the steps after `g` (they are never invoked),
and the terminal unit of the shared run-then-terminal semantics is never
invoked (the result is the sink `g` produced, for every terminal). -/
theorem c1_first_failure_short_circuits
    (fs : List (Middleware ε γ σ ρ)) (g : Middleware ε γ σ ρ)
    (gs : List (Middleware ε γ σ ρ)) (c : Ctx ε γ) (w : σ) (r : ρ)
    (hpre : (chain fs c w r).1.err = none)
    (hfail : (g (chain fs c w r).1 (chain fs c w r).2 r).1.err ≠ none) :
    chain (fs ++ g :: gs) c w r = g (chain fs c w r).1 (chain fs c w r).2 r
    ∧ (∀ gs', chain (fs ++ g :: gs') c w r = chain (fs ++ [g]) c w r)
    ∧ (∀ fn : HandlerFunc ε γ σ ρ,
        runThen (fs ++ g :: gs) fn c w r = (chain (fs ++ g :: gs) c w r).2) := by
  obtain ⟨e, he⟩ := Option.ne_none_iff_exists'.mp hfail
  have key : ∀ gs', chain (fs ++ g :: gs') c w r
      = g (chain fs c w r).1 (chain fs c w r).2 r := by
    intro gs'
    rw [chain_split fs (g :: gs') c w r hpre, chain_cons_fail he]
  refine ⟨key gs, fun gs' => (key gs').trans (key []).symm, fun fn => ?_⟩
  simp [runThen, key gs, he]

theorem c1_witness :
    (chain [mwSetOne] ctxOk 0 0).1.err = none
    ∧ (mwFailMark (chain [mwSetOne] ctxOk 0 0).1 (chain [mwSetOne] ctxOk 0 0).2 0).1.err ≠ none
    ∧ chain ([mwSetOne] ++ mwFailMark :: [mwIncrSink]) ctxOk 0 0
        = mwFailMark (chain [mwSetOne] ctxOk 0 0).1 (chain [mwSetOne] ctxOk 0 0).2 0 :=
  ⟨by decide, by decide,
    (c1_first_failure_short_circuits [mwSetOne] mwFailMark [mwIncrSink] ctxOk 0 0
      (by decide) (by decide)).1⟩

/-- C2: for every middleware sequence `fs ++ [g]` in which no step signals
failure (the chained prefix and the last step `g` each produce an unfailed
Context), both the request handler built by `Then` and the handler object
built by `Handle` invoke the terminal unit exactly once — the result is a
single application of the terminal — and the Context (and sink) the terminal
receives are the ones produced by the last middleware step `g`. -/
theorem c2_no_failure_terminal_runs_once
    (fs : List (Middleware ε γ σ ρ)) (g : Middleware ε γ σ ρ)
    (fn : HandlerFunc ε γ σ ρ) (h : Handler ε γ σ ρ) (nc : ρ → Ctx ε γ)
    (w : σ) (r : ρ)
    (hpre : (chain fs (nc r) w r).1.err = none)
    (hlast : (g (chain fs (nc r) w r).1 (chain fs (nc r) w r).2 r).1.err = none) :
    (New (fs ++ [g])).Then fn nc w r
      = fn (g (chain fs (nc r) w r).1 (chain fs (nc r) w r).2 r).1
           (g (chain fs (nc r) w r).1 (chain fs (nc r) w r).2 r).2 r
    ∧ ((New (fs ++ [g])).Handle h).ServeHTTP nc w r
      = h.ServeHTTP (g (chain fs (nc r) w r).1 (chain fs (nc r) w r).2 r).1
           (g (chain fs (nc r) w r).1 (chain fs (nc r) w r).2 r).2 r := by
  have key : chain (fs ++ [g]) (nc r) w r
      = g (chain fs (nc r) w r).1 (chain fs (nc r) w r).2 r := by
    rw [chain_split fs [g] (nc r) w r hpre, chain_singleton]
  constructor
  · rw [then_eq_runThen]
    simp [runThen, New, key, hlast]
  · rw [handle_eq_runThen]
    simp [runThen, New, key, hlast]

theorem c2_witness :
    (chain [mwSetOne] (ncFresh 0) 0 0).1.err = none
    ∧ (mwIncrSink (chain [mwSetOne] (ncFresh 0) 0 0).1 (chain [mwSetOne] (ncFresh 0) 0 0).2 0).1.err = none
    ∧ (New ([mwSetOne] ++ [mwIncrSink])).Then tReadVal ncFresh 0 0
        = tReadVal (mwIncrSink (chain [mwSetOne] (ncFresh 0) 0 0).1 (chain [mwSetOne] (ncFresh 0) 0 0).2 0).1
            (mwIncrSink (chain [mwSetOne] (ncFresh 0) 0 0).1 (chain [mwSetOne] (ncFresh 0) 0 0).2 0).2 0 :=
  ⟨by decide, by decide,
    (c2_no_failure_terminal_runs_once [mwSetOne] mwIncrSink tReadVal
      ⟨tReadVal⟩ ncFresh 0 0 (by decide) (by decide)).1⟩

/-- C3: the empty middleware sequence composes to the identity on the
(Context, sink) pair, and consequently the handlers built by `Then`/`Handle`
on an empty chain behave as if the terminal were invoked directly with the
freshly derived Context (fresh Contexts carry no failure, hypothesis
`hfresh`). -/
theorem c3_empty_chain_identity
    (c : Ctx ε γ) (w : σ) (r : ρ) (fn : HandlerFunc ε γ σ ρ)
    (h : Handler ε γ σ ρ) (nc : ρ → Ctx ε γ) (hfresh : (nc r).err = none) :
    chain ([] : List (Middleware ε γ σ ρ)) c w r = (c, w)
    ∧ (New []).Then fn nc w r = fn (nc r) w r
    ∧ ((New []).Handle h).ServeHTTP nc w r = h.ServeHTTP (nc r) w r := by
  refine ⟨chain_nil c w r, ?_, ?_⟩
  · rw [then_eq_runThen]
    simp [runThen, New, chain_nil, hfresh]
  · rw [handle_eq_runThen]
    simp [runThen, New, chain_nil, hfresh]

theorem c3_witness :
    (ncFresh 0).err = none
    ∧ chain ([] : List (Middleware Unit Nat Nat Nat)) ctxOk 5 0 = (ctxOk, 5)
    ∧ (New []).Then tReadVal ncFresh 5 0 = tReadVal (ncFresh 0) 5 0 :=
  ⟨by decide,
    (c3_empty_chain_identity ctxOk 5 0 tReadVal ⟨tReadVal⟩ ncFresh (by decide)).1,
    (c3_empty_chain_identity ctxOk 5 0 tReadVal ⟨tReadVal⟩ ncFresh (by decide)).2.1⟩

/-- C4: for the chain `[A, B]` where `A` returns a failed Context, `Run`
returns exactly the failed (Context, sink) pair produced by `A`; the result
does not depend on `B` (it never runs), and the handler built by `Then` never
invokes the terminal (its result is the sink produced by `A`). -/
theorem c4_two_step_first_fails
    (A B : Middleware ε γ σ ρ) (c : Ctx ε γ) (w : σ) (r : ρ)
    (fn : HandlerFunc ε γ σ ρ) (nc : ρ → Ctx ε γ) (w' : σ) (r' : ρ)
    (h1 : (A c w r).1.err ≠ none)
    (h2 : (A (nc r') w' r').1.err ≠ none) :
    (New [A, B]).Run c w r = A c w r
    ∧ (∀ B', (New [A, B']).Run c w r = A c w r)
    ∧ (New [A, B]).Then fn nc w' r' = (A (nc r') w' r').2 := by
  obtain ⟨e1, he1⟩ := Option.ne_none_iff_exists'.mp h1
  obtain ⟨e2, he2⟩ := Option.ne_none_iff_exists'.mp h2
  have key : ∀ B', (New [A, B']).Run c w r = A c w r := by
    intro B'
    show chain [A, B'] c w r = A c w r
    exact chain_cons_fail he1
  refine ⟨key B, key, ?_⟩
  rw [then_eq_runThen]
  have hc : chain [A, B] (nc r') w' r' = A (nc r') w' r' := chain_cons_fail he2
  simp [runThen, New, hc, he2]

theorem c4_witness :
    (mwFailMark ctxOk 0 0).1.err ≠ none
    ∧ (mwFailMark (ncFresh 0) 0 0).1.err ≠ none
    ∧ (New [mwFailMark, mwIncrSink]).Run ctxOk 0 0 = mwFailMark ctxOk 0 0 :=
  ⟨by decide, by decide,
    (c4_two_step_first_fails mwFailMark mwIncrSink ctxOk 0 0 tReadVal ncFresh 0 0
      (by decide) (by decide)).1⟩

/-- C5: the middleware at position 0 runs unconditionally: even when the
Context passed into `Run` already carries a failure, the composed chain's
result is built from the output of the first step (the failure check happens
only after each step runs, never before step 0). -/
theorem c5_first_step_unconditional
    (f : Middleware ε γ σ ρ) (fs : List (Middleware ε γ σ ρ))
    (c : Ctx ε γ) (w : σ) (r : ρ) (_hc : c.err ≠ none) :
    (New (f :: fs)).Run c w r
      = match (f c w r).1.err with
        | some _ => f c w r
        | none => chain fs (f c w r).1 (f c w r).2 r := by
  show chain (f :: fs) c w r = _
  cases h : (f c w r).1.err with
  | some e => rw [chain_cons_fail h]
  | none => rw [chain_cons_ok h]

theorem c5_witness :
    ctxFailed.err ≠ none ∧ (New [mwIncrSink]).Run ctxFailed 0 0 = (ctxFailed, 1) :=
  ⟨by decide,
    (c5_first_step_unconditional mwIncrSink [] ctxFailed 0 0 (by decide)).trans
      (by decide)⟩

/-- C6: appending with `Add` before any invocation is the same as constructing
with all the steps up front: `Add` on a freshly built chain yields exactly the
chain built with the concatenated step list, `Add` of zero steps is a no-op,
the existing order is preserved (the step list is the concatenation), and the
composed behavior under `Run` is identical. -/
theorem c6_add_equals_construction
    (fs gs : List (Middleware ε γ σ ρ)) (c : Ctx ε γ) (w : σ) (r : ρ) :
    (New fs).Add gs = New (fs ++ gs)
    ∧ (New fs).Add [] = New fs
    ∧ ((New fs).Add gs).fns = fs ++ gs
    ∧ ((New fs).Add gs).Run c w r = (New (fs ++ gs)).Run c w r := by
  refine ⟨rfl, ?_, rfl, rfl⟩
  simp [New, Q.Add]

/-- C7 counterexample: with the code's `Then` — whose returned handler derives
a fresh Context from the factory — the literal associativity statement fails:
for `a` storing 1 in the Context payload and `b` copying the payload to the
sink, `Chain([a,b]).Then(c)` writes 1 to the sink while
`Chain([a]).Then(Chain([b]).Then(c))` re-derives a fresh Context (payload 0)
before `b`, writing 0. -/
theorem c7_counterexample :
    (New [mwSetOne, mwCopyVal]).Then tcSink ncFresh 0 0
      ≠ (New [mwSetOne]).Then
          (fun _ w r => (New [mwCopyVal]).Then tcSink ncFresh w r) ncFresh 0 0 := by
  decide

/-- C7 (amended): chain composition is associative for the shared
run-then-terminal semantics, in which the Context produced by the chain is
threaded into the continuation instead of being re-derived: when neither `a`
nor `b` signals failure, running `[a, b]` then `c` equals running `[a]` then
(running `[b]` then `c`). The code's `Then` does not satisfy the literal
statement because the handler returned by the inner `Then` derives a fresh
Context, discarding the Context produced by `a`. -/
theorem c7_threaded_associativity
    (a b : Middleware ε γ σ ρ) (tc : HandlerFunc ε γ σ ρ)
    (c : Ctx ε γ) (w : σ) (r : ρ)
    (h1 : (a c w r).1.err = none)
    (h2 : (b (a c w r).1 (a c w r).2 r).1.err = none) :
    runThen [a, b] tc c w r
      = runThen [a] (fun c1 w1 r1 => runThen [b] tc c1 w1 r1) c w r := by
  have hab : chain [a, b] c w r = b (a c w r).1 (a c w r).2 r := by
    rw [chain_cons_ok h1, chain_singleton]
  simp [runThen, hab, h2, chain_singleton, h1]

theorem c7_witness :
    (mwSetOne ctxOk 0 0).1.err = none
    ∧ (mwCopyVal (mwSetOne ctxOk 0 0).1 (mwSetOne ctxOk 0 0).2 0).1.err = none
    ∧ runThen [mwSetOne, mwCopyVal] tcSink ctxOk 0 0
        = runThen [mwSetOne]
            (fun c1 w1 r1 => runThen [mwCopyVal] tcSink c1 w1 r1) ctxOk 0 0 :=
  ⟨by decide, by decide,
    c7_threaded_associativity mwSetOne mwCopyVal tcSink ctxOk 0 0
      (by decide) (by decide)⟩

/-- C8: the execution modes share the same composed-chain short-circuit
semantics: for every chain, terminal function `f`, Context factory, sink and
request, the request handler returned by `Then f` and the handler object
returned by `Handle` on a handler whose serve capability is `f` produce the
same result. -/
theorem c8_then_handle_agree (q : Q ε γ σ ρ) (f : HandlerFunc ε γ σ ρ)
    (nc : ρ → Ctx ε γ) (w : σ) (r : ρ) :
    q.Then f nc w r = (q.Handle ⟨f⟩).ServeHTTP nc w r := rfl

/-- C9: a handler obtained from `Then`/`Handle` is a snapshot: `Then` builds
the composed middleware from the steps present when it is called, so the
handler's behavior is exactly the run-then-terminal semantics over those
steps alone (first conjunct), and the handler object built by `Handle` holds
the chain composed from those steps (second conjunct); steps added afterwards
are never executed by it, although they do change the chain a later
`Then` would build (third conjunct, concrete separation). -/
theorem c9_then_is_snapshot :
    (∀ (ε γ σ ρ : Type) (fs : List (Middleware ε γ σ ρ))
        (f : HandlerFunc ε γ σ ρ) (nc : ρ → Ctx ε γ) (w : σ) (r : ρ),
        (New fs).Then f nc w r = runThen fs f (nc r) w r)
    ∧ (∀ (ε γ σ ρ : Type) (fs : List (Middleware ε γ σ ρ))
        (h : Handler ε γ σ ρ) (c : Ctx ε γ) (w : σ) (r : ρ),
        ((New fs).Handle h).mw c w r = chain fs c w r)
    ∧ (New ([] : List (Middleware Unit Nat Nat Nat))).Then tcSink ncFresh 0 0
        ≠ ((New ([] : List (Middleware Unit Nat Nat Nat))).Add [mwIncrSink]).Then
            tcSink ncFresh 0 0 := by
  refine ⟨fun ε γ σ ρ fs f nc w r => rfl, fun ε γ σ ρ fs h c w r => rfl, ?_⟩
  decide

/-- C10: if every middleware step in the chain returns a non-nil Context, the
composed chain never faults (the `Err()` check never dereferences nil and the
run yields a result); and whenever a reached step returns a nil Context, the
check right after that step is a nil dereference (the run faults). -/
theorem c10_nil_context_safety :
    (∀ (ε γ σ ρ : Type) (fns : List (MiddlewareN ε γ σ ρ)),
        (∀ f ∈ fns, ∀ (c : Ctx ε γ) (w : σ) (r : ρ), (f c w r).1 ≠ none) →
        ∀ (c : Ctx ε γ) (w : σ) (r : ρ), ∃ p, chainN fns c w r = Except.ok p)
    ∧ (∀ (ε γ σ ρ : Type) (fs : List (MiddlewareN ε γ σ ρ))
        (g : MiddlewareN ε γ σ ρ) (gs : List (MiddlewareN ε γ σ ρ))
        (c : Ctx ε γ) (w : σ) (r : ρ) (p : Ctx ε γ × σ),
        chainN fs c w r = Except.ok p → p.1.err = none → (g p.1 p.2 r).1 = none →
        chainN (fs ++ g :: gs) c w r = Except.error ()) := by
  constructor
  · intro ε γ σ ρ fns hsafe c w r
    induction fns generalizing c w with
    | nil => exact ⟨(c, w), rfl⟩
    | cons f fs ih =>
      cases h : (f c w r).1 with
      | none => exact absurd h (hsafe f (List.mem_cons_self f fs) c w r)
      | some c1 =>
        cases hc : c1.err with
        | some e => exact ⟨(c1, (f c w r).2), chainN_cons_fail h hc⟩
        | none =>
          rw [chainN_cons_ok h hc]
          exact ih (fun f' hf' => hsafe f' (List.mem_cons_of_mem f hf')) _ _
  · intro ε γ σ ρ fs g gs c w r p hpre he hnil
    rw [chainN_split fs (g :: gs) c w r p hpre he]
    exact chainN_cons_nil hnil

theorem c10_witness :
    chainN [mwNSome] ctxOk 0 0 = Except.ok (ctxOk, 1)
    ∧ ctxOk.err = none
    ∧ (mwNNil ctxOk 1 0).1 = none
    ∧ (∃ p, chainN [mwNSome] ctxOk 0 0 = Except.ok p)
    ∧ chainN ([mwNSome] ++ mwNNil :: []) ctxOk 0 0 = Except.error () :=
  ⟨rfl, rfl, rfl,
    c10_nil_context_safety.1 Unit Nat Nat Nat [mwNSome]
      (by
        intro f hf c w r
        rw [List.mem_singleton] at hf
        subst hf
        simp [mwNSome]) ctxOk 0 0,
    c10_nil_context_safety.2 Unit Nat Nat Nat [mwNSome] mwNNil [] ctxOk 0 0
      (ctxOk, 1) rfl rfl rfl⟩

end Quincy
